import Mathlib

/-!
Verification development for the PyOZ wheel-building pipeline.

The definitions below are a shallow embedding of pypi/build_wheels.py and
pypi/pyoz/backend.py. File contents and archive-entry payloads are modelled
as Lean strings standing for byte strings, with byte length taken as UTF-8
size. The external SHA-256 primitive from hashlib is a function parameter H
returning the 32 digest bytes; the urlsafe base64 step of sha256_digest is
implemented concretely. Filesystem state is an explicit record of files and
directories scoped to the relevant root. External collaborators such as the
zig builder and the network fetch are injected as parameters or as
Except-valued inputs, matching where the Python code observes their results.
-/

namespace PyOZ

/-! ## Character-level helpers, models of Python str and bytes primitives -/

/-- Whitespace characters recognised by the Python str.strip method and by the
regex whitespace class. -/
def pySpace (c : Char) : Bool :=
  c = ' ' || c = '\t' || c = '\n' || c = '\r' || c = '\x0b' || c = '\x0c'

/-- Model of str.strip with no argument: remove leading and trailing whitespace. -/
def pyStrip (s : String) : String :=
  ⟨((s.data.dropWhile pySpace).reverse.dropWhile pySpace).reverse⟩

/-- Leading-match test on character lists: the first list is an initial segment
of the second. -/
def leadsWith : List Char → List Char → Bool
  | [], _ => true
  | _ :: _, [] => false
  | a :: as, b :: bs => a = b && leadsWith as bs

/-- Occurrence test on character lists: the needle occurs contiguously in the hay. -/
def containsChars (needle : List Char) : List Char → Bool
  | [] => leadsWith needle []
  | c :: cs => leadsWith needle (c :: cs) || containsChars needle cs

/-- Model of the Python membership test of a substring in a string. -/
def strContainsStr (s sub : String) : Bool := containsChars sub.data s.data

/-! ## sha256_digest, build_wheels.py lines 255 to 260 -/

/-- The urlsafe base64 alphabet used by base64.urlsafe_b64encode. -/
def b64Alphabet : List Char :=
  "ABCDEFGHIJKLMNOPQRSTUVWXYZabcdefghijklmnopqrstuvwxyz0123456789-_".data

def b64Char (n : Nat) : Char := b64Alphabet.getD n 'A'

/-- Chunk encoder for urlsafe base64 with padding, three input bytes per four
output characters. -/
def b64Chunks : List Nat → List Char
  | b1 :: b2 :: b3 :: rest =>
      b64Char (b1 / 4) :: b64Char ((b1 % 4) * 16 + b2 / 16) ::
      b64Char ((b2 % 16) * 4 + b3 / 64) :: b64Char (b3 % 64) :: b64Chunks rest
  | [b1, b2] =>
      [b64Char (b1 / 4), b64Char ((b1 % 4) * 16 + b2 / 16), b64Char ((b2 % 16) * 4), '=']
  | [b1] => [b64Char (b1 / 4), b64Char ((b1 % 4) * 16), '=', '=']
  | [] => []

/-- Model of base64.urlsafe_b64encode. -/
def urlsafe_b64encode (bs : List Nat) : String := ⟨b64Chunks bs⟩

/-- Model of sha256_digest: hash with the external primitive H, encode urlsafe
base64, and strip the trailing padding characters, as in the Python source. -/
def sha256_digest (H : String → List Nat) (data : String) : String :=
  ⟨((urlsafe_b64encode (H data)).data.reverse.dropWhile (· = '=')).reverse⟩

/-! ## WheelAssembler, build_wheels.py lines 299 to 382 -/

/-- One entry of a zip archive: in-archive path, payload bytes, and the
external-attributes word carrying unix permission bits. -/
structure ArchiveEntry where
  path : String
  data : String
  externalAttr : Nat := 0
  deriving DecidableEq

/-- Model of the namelist method of ZipFile: paths in insertion order. -/
def namelist (z : List ArchiveEntry) : List String := z.map (fun e => e.path)

/-- Model of the read method of ZipFile: payload of the first entry carrying the
given path. -/
def zread (z : List ArchiveEntry) (item : String) : String :=
  match z.find? (fun e => e.path == item) with
  | some e => e.data
  | none => ""

def dist_info (version : String) : String := "pyoz-" ++ version ++ ".dist-info"

/-- Archive filename from build_wheel, line 305. -/
def wheel_name (version platform_tag : String) : String :=
  "pyoz-" ++ version ++ "-cp38-abi3-" ++ platform_tag ++ ".whl"

/-- The METADATA text block, lines 333 to 351, with the readme interpolated at
the end. -/
def METADATA_text (version readme_content : String) : String :=
  "Metadata-Version: 2.1\nName: pyoz\nVersion: " ++ version ++
  "\nSummary: Python extension modules in Zig, made easy\nHome-page: https://pyoz.dev\nAuthor: Daniele Linguaglossa\nLicense: MIT\nRequires-Python: >=3.8\nClassifier: Development Status :: 4 - Beta\nClassifier: Intended Audience :: Developers\nClassifier: License :: OSI Approved :: MIT License\nClassifier: Programming Language :: Python :: 3\nClassifier: Topic :: Software Development :: Build Tools\nProject-URL: Documentation, https://pyoz.dev\nProject-URL: Source, https://github.com/pyozig/PyOZ\nProject-URL: Changelog, https://pyoz.dev/changelog\nDescription-Content-Type: text/markdown\n\n" ++
  readme_content

/-- The WHEEL text block, lines 355 to 359. -/
def WHEEL_text (platform_tag : String) : String :=
  "Wheel-Version: 1.0\nGenerator: pyoz-build\nRoot-Is-Purelib: false\nTag: cp38-abi3-" ++
  platform_tag ++ "\n"

def entry_points_text : String := "[console_scripts]\npyoz = pyoz:main\n"

def top_level_text : String := "pyoz\n_pyoz\n"

/-- The seven archive entries written before RECORD, in insertion order,
lines 312 to 369. The native extension entry carries the 0o755 permission
bits in its external attributes. -/
def wheelEntriesPre (version platform_tag ext readme initContent mainContent extData : String) :
    List ArchiveEntry :=
  [ ⟨"pyoz/__init__.py", initContent, 0⟩,
    ⟨"pyoz/__main__.py", mainContent, 0⟩,
    ⟨"_pyoz" ++ ext, extData, 0o755 <<< 16⟩,
    ⟨dist_info version ++ "/METADATA", METADATA_text version readme, 0⟩,
    ⟨dist_info version ++ "/WHEEL", WHEEL_text platform_tag, 0⟩,
    ⟨dist_info version ++ "/entry_points.txt", entry_points_text, 0⟩,
    ⟨dist_info version ++ "/top_level.txt", top_level_text, 0⟩ ]

/-- One line of the RECORD manifest for a stored item, line 377. -/
def record_line (H : String → List Nat) (item data : String) : String :=
  item ++ ",sha256=" ++ sha256_digest H data ++ "," ++ toString data.utf8ByteSize

/-- Model of build_wheel, lines 312 to 379: write the seven entries, then
compute RECORD by walking namelist and reading every written entry back, and
append the RECORD entry last with a trailing self-referential line. -/
def build_wheel (H : String → List Nat)
    (version platform_tag ext readme initContent mainContent extData : String) :
    List ArchiveEntry :=
  let z := wheelEntriesPre version platform_tag ext readme initContent mainContent extData
  let record_lines :=
    (namelist z).map (fun item => record_line H item (zread z item))
      ++ [dist_info version ++ "/RECORD,,"]
  z ++ [⟨dist_info version ++ "/RECORD", String.intercalate "\n" record_lines ++ "\n", 0⟩]

/-! ## ExportSymbolTable and _generate_python3_def, build_wheels.py lines 46 to 89 -/

/-- A parsed TOML value as observed by _generate_python3_def: either a table,
or any non-table value, which the generator skips. -/
inductive PyVal where
  | table : List (String × PyVal) → PyVal
  | scalar : PyVal

/-- Names in a table whose own value is again a table; the generator keeps
exactly these, line 71. -/
def innerNames (entries : List (String × PyVal)) : List String :=
  (entries.filter (fun p => match p.2 with | .table _ => true | _ => false)).map
    (fun p => p.1)

/-- Function symbols collected in manifest order, lines 67 to 74. -/
def functionsOf : List (String × PyVal) → List String
  | [] => []
  | (category, PyVal.table entries) :: rest =>
      (if category = "function" then innerNames entries else []) ++ functionsOf rest
  | (_, PyVal.scalar) :: rest => functionsOf rest

/-- Data symbols collected in manifest order, lines 67 to 76. -/
def datasOf : List (String × PyVal) → List String
  | [] => []
  | (category, PyVal.table entries) :: rest =>
      (if category = "data" then innerNames entries else []) ++ datasOf rest
  | (_, PyVal.scalar) :: rest => datasOf rest

/-- Contribution of one manifest entry to the symbol list of one category. -/
def entryCat (cat : String) (p : String × PyVal) : List String :=
  match p with
  | (c, PyVal.table l) => if c = cat then innerNames l else []
  | _ => []

/-- All symbols of one category, in manifest order. -/
def catSymbols (cat : String) (d : List (String × PyVal)) : List String :=
  d.flatMap (entryCat cat)

/-- Model of the Python sorted builtin on strings, ascending code-point order. -/
def sortStrings (l : List String) : List String := List.insertionSort (· ≤ ·) l

/-- Text of the generated python3.def file, lines 79 to 85. -/
def defFileText (data : List (String × PyVal)) : String :=
  "LIBRARY python3\n" ++ "EXPORTS\n" ++
  String.join ((sortStrings (functionsOf data)).map (fun n => "    " ++ n ++ "\n")) ++
  String.join ((sortStrings (datasOf data)).map (fun n => "    " ++ n ++ " DATA\n"))

/-- Boolean check that the keys of a table value are distinct, the guarantee a
real TOML parser gives for every table it returns. -/
def innerKeysOk (v : PyVal) : Bool :=
  match v with
  | .table l => decide (l.map Prod.fst).Nodup
  | .scalar => true

/-- Pointwise equivalence of manifest entries: same key, and table values may
present their rows in any order. -/
def EntryPerm (p q : String × PyVal) : Prop :=
  p.1 = q.1 ∧
    match p.2, q.2 with
    | PyVal.table l, PyVal.table l2 => l.Perm l2
    | a, b => a = b

/-- Reordering of a manifest: permute the top-level categories and the rows
inside each table. -/
def ManifestPerm (d d2 : List (String × PyVal)) : Prop :=
  ∃ mid, d.Perm mid ∧ List.Forall₂ EntryPerm mid d2

/-! ## HeaderProvisioner, build_wheels.py lines 40 to 241 -/

/-- Filesystem state scoped to the headers directory: files as an association
list from relative path to content, most recent write first, plus the set of
created directories. -/
structure FS where
  files : List (String × String)
  dirs : List String
  deriving DecidableEq

def FS.writeFile (fs : FS) (p c : String) : FS := ⟨(p, c) :: fs.files, fs.dirs⟩

def FS.mkdir (fs : FS) (d : String) : FS := ⟨fs.files, d :: fs.dirs⟩

def FS.readFile (fs : FS) (p : String) : Option String := fs.files.lookup p

def markerName : String := ".cpython-version"

def CPYTHON_VERSION : String := "3.13.1"

/-- Cache-hit test, lines 100 to 107: the marker file exists and its stripped
content equals the requested version. -/
def cacheHit (version : String) (fs : FS) : Bool :=
  match fs.readFile markerName with
  | some c => pyStrip c == version
  | none => false

/-- One member of the downloaded source tarball. The fileData field is the
result of extractfile, which the source checks against None. -/
structure TarMember where
  name : String
  isFile : Bool
  fileData : Option String
  deriving DecidableEq

def includeRoot (version : String) : String := "Python-" ++ version ++ "/Include/"

def pcPyconfigName (version : String) : String := "Python-" ++ version ++ "/PC/pyconfig.h.in"

def stableAbiName (version : String) : String := "Python-" ++ version ++ "/Misc/stable_abi.toml"

/-- Directory part of a relative path, model of os.path.dirname. -/
def dirname (p : String) : String :=
  match p.data.reverse.dropWhile (fun c => c ≠ '/') with
  | '/' :: rest => ⟨rest.reverse⟩
  | _ => ""

/-- Processing of one tar member, lines 132 to 164: files under the Include
root are copied preserving relative structure, the PC configuration header
goes to the windows subtree, and the stable ABI manifest drives generation of
the linker-definition file when a TOML parser is available. -/
def extractMember (version : String) (tomlAvailable : Bool)
    (tomlParse : String → List (String × PyVal)) (fs : FS) (m : TarMember) : FS :=
  if !m.isFile then fs
  else if leadsWith (includeRoot version).data m.name.data then
    let rel : String := ⟨m.name.data.drop (includeRoot version).data.length⟩
    if rel = "" then fs
    else
      let fs2 := fs.mkdir (dirname rel)
      match m.fileData with
      | some c => fs2.writeFile rel c
      | none => fs2
  else if m.name = pcPyconfigName version then
    match m.fileData with
    | some c => fs.writeFile "windows/pyconfig.h" c
    | none => fs
  else if m.name = stableAbiName version then
    match m.fileData with
    | some c =>
        if tomlAvailable then fs.writeFile "windows/python3.def" (defFileText (tomlParse c))
        else fs
    | none => fs
  else fs

/-- The whole extraction loop over the tarball members, lines 131 to 164. -/
def extractAll (version : String) (tomlAvailable : Bool)
    (tomlParse : String → List (String × PyVal)) (fs : FS) (members : List TarMember) : FS :=
  members.foldl (extractMember version tomlAvailable tomlParse) fs

/-- The cleaned and recreated directory tree, lines 111 to 117: no files, and
the root plus the windows and unix subtrees. -/
def freshTree : FS := ⟨[], ["", "windows", "unix"]⟩

/-- Host configuration-header staging, lines 166 to 173: copy the host header
into the unix subtree when one was found, warn and continue otherwise. -/
def stageHost (host : Option String) (fs : FS) : FS :=
  match host with
  | some c => fs.writeFile "unix/pyconfig.h" c
  | none => fs

/-- Result of one run of ensure_python_headers: final directory state, number
of network downloads performed, and normal or exceptional termination. -/
structure EnsureResult where
  fs : FS
  downloads : Nat
  outcome : Except String Unit

/-- Model of ensure_python_headers, lines 92 to 182. On a cache hit it returns
at once. Otherwise the old tree is removed and recreated before the single
download; a failing fetch, or a tarball that cannot be decoded, surfaces as an
error with the directory left in its cleaned state; on success the marker is
the last file written. -/
def ensure_python_headers (version : String) (fs : FS)
    (fetch : Except String String)
    (parseTar : String → Except String (List TarMember))
    (tomlAvailable : Bool) (tomlParse : String → List (String × PyVal))
    (host : Option String) : EnsureResult :=
  if cacheHit version fs then ⟨fs, 0, .ok ()⟩
  else
    match fetch with
    | .error e => ⟨freshTree, 1, .error e⟩
    | .ok bytes =>
      match parseTar bytes with
      | .error e => ⟨freshTree, 1, .error e⟩
      | .ok members =>
        let fs1 := extractAll version tomlAvailable tomlParse freshTree members
        let fs2 := stageHost host fs1
        ⟨fs2.writeFile markerName version, 1, .ok ()⟩

/-- Per-target configuration-header staging, stage_pyconfig, lines 226 to 241. -/
def stage_pyconfig (fs : FS) (zig_target : String) : FS :=
  let src :=
    if strContainsStr zig_target "windows" then "windows/pyconfig.h" else "unix/pyconfig.h"
  match fs.readFile src with
  | some c => fs.writeFile "pyconfig.h" c
  | none => fs

/-! ## TargetMatrix and BuildOrchestrator, build_wheels.py lines 29 to 36 and 385 to 489 -/

structure TargetRow where
  zigTarget : String
  platformTag : String
  ext : String
  deriving DecidableEq

/-- The static target matrix, lines 29 to 36, in build order. -/
def TARGETS : List TargetRow :=
  [ ⟨"x86_64-linux-gnu", "manylinux2014_x86_64", ".so"⟩,
    ⟨"aarch64-linux-gnu", "manylinux2014_aarch64", ".so"⟩,
    ⟨"x86_64-macos", "macosx_11_0_x86_64", ".so"⟩,
    ⟨"aarch64-macos", "macosx_11_0_arm64", ".so"⟩,
    ⟨"x86_64-windows", "win_amd64", ".pyd"⟩,
    ⟨"aarch64-windows", "win_arm64", ".pyd"⟩ ]

/-- Model of find_extension, lines 288 to 296: probe zig-out/lib then
zig-out/bin for the built extension, in that order, and return the first hit.
The isfile parameter is the state of the filesystem probe. -/
def find_extension (isfile : String → Bool) (ext : String) : Option String :=
  (["lib", "bin"].map (fun sub => "zig-out/" ++ sub ++ "/_pyoz" ++ ext)).find? isfile

/-- Windows-family test as used on zig target names by stage_pyconfig. -/
def isWindowsRow (t : TargetRow) : Bool := strContainsStr t.zigTarget "windows"

/-- The platform-family conventional artifact directory: bin for Windows
targets, lib for Unix-like targets. -/
def familySubdir (t : TargetRow) : String := if isWindowsRow t then "bin" else "lib"

def otherSubdir (t : TargetRow) : String := if isWindowsRow t then "lib" else "bin"

def familyPath (t : TargetRow) : String :=
  "zig-out/" ++ familySubdir t ++ "/_pyoz" ++ t.ext

def otherPath (t : TargetRow) : String :=
  "zig-out/" ++ otherSubdir t ++ "/_pyoz" ++ t.ext

/-- Model of get_current_platform_info, lines 385 to 408, over the lowercased
host system and machine names. -/
def get_current_platform_info (system machine0 : String) : TargetRow :=
  let machine :=
    if machine0 == "x86_64" || machine0 == "amd64" then "x86_64"
    else if machine0 == "aarch64" || machine0 == "arm64" then "aarch64"
    else machine0
  if system == "windows" then
    ⟨machine ++ "-windows",
     "win_" ++ (if machine == "x86_64" then "amd64" else "arm64"), ".pyd"⟩
  else if system == "darwin" then
    ⟨machine ++ "-macos",
     "macosx_11_0_" ++ (if machine == "x86_64" then "x86_64" else "arm64"), ".so"⟩
  else
    ⟨machine ++ "-linux-gnu", "manylinux2014_" ++ machine, ".so"⟩

/-- Observable outcome of a run of main: archive filenames produced in order,
number of native-builder invocations, the final summary line when reached, and
the process exit status. -/
structure MainResult where
  wheels : List String
  builderCalls : Nat
  summary : Option String
  exitCode : Nat
  deriving DecidableEq

/-- The final summary line, line 484. -/
def summaryText (n : Nat) (dist_dir : String) : String :=
  "Done! Built " ++ toString n ++ " wheel(s) in " ++ dist_dir

/-- One iteration of the all-targets loop, lines 464 to 481: skip on builder
failure, skip on missing artifact, otherwise assemble one wheel. Returns the
wheel filename if one was built, and the number of builder invocations. The
buildOk and isfile parameters stand for the exit status of the external zig
build and for the filesystem state when this target is probed. -/
def processTarget (no_build : Bool) (buildOk : TargetRow → Bool)
    (isfile : TargetRow → String → Bool) (version : String) (t : TargetRow) :
    Option String × Nat :=
  if !no_build && !(buildOk t) then (none, 1)
  else
    let calls := if no_build then 0 else 1
    match find_extension (isfile t) t.ext with
    | none => (none, calls)
    | some _ => (some (wheel_name version t.platformTag), calls)

/-- The all-targets loop followed by the summary print, lines 463 to 484; the
loop never aborts, so this path always exits 0. -/
def runTargetLoop (no_build : Bool) (buildOk : TargetRow → Bool)
    (isfile : TargetRow → String → Bool) (version dist_dir : String) : MainResult :=
  let results := TARGETS.map (processTarget no_build buildOk isfile version)
  let wheels := results.filterMap Prod.fst
  ⟨wheels, (results.map Prod.snd).sum, some (summaryText wheels.length dist_dir), 0⟩

/-- Model of main in all-targets mode, lines 438 to 484: header provisioning
runs first unless no_build is set, and an exception there aborts the run with
a non-zero status before any target is attempted. -/
def main_all (no_build : Bool) (ensureOutcome : Except String Unit)
    (buildOk : TargetRow → Bool) (isfile : TargetRow → String → Bool)
    (version dist_dir : String) : MainResult :=
  if no_build then runTargetLoop no_build buildOk isfile version dist_dir
  else
    match ensureOutcome with
    | .error _ => ⟨[], 0, none, 1⟩
    | .ok () => runTargetLoop no_build buildOk isfile version dist_dir

/-- Model of main in current-platform-only mode, lines 448 to 462 plus the
summary: a failed build or a missing artifact calls sys.exit with status 1
before any archive assembly. -/
def main_current (no_build : Bool) (system machine : String) (zigOk : Bool)
    (isfile : String → Bool) (version dist_dir : String) : MainResult :=
  let t := get_current_platform_info system machine
  let calls := if no_build then 0 else 1
  if !no_build && !zigOk then ⟨[], 1, none, 1⟩
  else
    match find_extension isfile t.ext with
    | none => ⟨[], calls, none, 1⟩
    | some _ => ⟨[wheel_name version t.platformTag], calls, some (summaryText 1 dist_dir), 0⟩

/-! ## VersionResolver and the PEP 517 backend field reader -/

/-- Split the text after the opening quote at the last quote character, the
behaviour of the greedy capture group followed by a closing quote; the group
must be non-empty. -/
def lastQuoteGroup (cs : List Char) : Option (List Char) :=
  match cs.reverse.dropWhile (fun c => c ≠ '"') with
  | '"' :: grpRev => if grpRev.isEmpty then none else some grpRev.reverse
  | _ => none

/-- Model of re.match for the anchored pattern used by both readers: the field
name, optional whitespace, an equals sign, optional whitespace, then a quoted
non-empty greedy group. Returns the captured group. -/
def reFieldMatch (field line : String) : Option String :=
  if leadsWith field.data line.data then
    match (line.data.drop field.data.length).dropWhile pySpace with
    | '=' :: rest =>
      match rest.dropWhile pySpace with
      | '"' :: rest2 =>
        match lastQuoteGroup rest2 with
        | some grp => some ⟨grp⟩
        | none => none
      | _ => none
    | _ => none
  else none

def projectFallback (field : String) : String :=
  if field == "name" then "unknown" else "0.0.0"

/-- Model of _get_project_field, backend.py lines 58 to 67: a missing manifest
or a manifest with no matching line yields the per-field fallback, and the
reader never raises. -/
def _get_project_field (field : String) (file : Option (List String)) : String :=
  match file with
  | some lines =>
    match lines.findSome? (reFieldMatch field) with
    | some v => v
    | none => projectFallback field
  | none => projectFallback field

/-- Filename produced by build_sdist, backend.py lines 44 to 55. -/
def build_sdist_filename (file : Option (List String)) : String :=
  _get_project_field "name" file ++ "-" ++ _get_project_field "version" file ++ ".tar.gz"

/-- Model of get_version, build_wheels.py lines 244 to 252: a missing manifest
raises FileNotFoundError from open, and a manifest with no matching line
raises RuntimeError. -/
def get_version (file : Option (List String)) : Except String String :=
  match file with
  | none => .error "FileNotFoundError"
  | some lines =>
    match lines.findSome? (reFieldMatch "version") with
    | some v => .ok v
    | none => .error "Could not find version in pyproject.toml"

/-- Modelled from the spec: the self-contained-binary packaging mode lives in
the Zig-side builder, which is not among the Python sources; section 6 of the
spec gives its archive filename the same grammar with the compatibility tag
py3-none. -/
def binary_mode_wheel_name (name version platform_tag archiveExt : String) : String :=
  name ++ "-" ++ version ++ "-py3-none-" ++ platform_tag ++ "." ++ archiveExt

/-! ## Concrete fixtures used by closed statements -/

/-- Probe for which only the Unix library output path exists. -/
def libOnlyProbe : String → Bool := fun p => p == "zig-out/lib/_pyoz.so"

/-- Probe for which no path exists. -/
def noFileProbe : String → Bool := fun _ => false

/-- Per-target probe for which no path exists. -/
def noneProbe : TargetRow → String → Bool := fun _ _ => false

/-- Per-target probe for which every path exists. -/
def allPresentProbe : TargetRow → String → Bool := fun _ _ => true

/-- Builder outcome: every target builds. -/
def anyBuildOk : TargetRow → Bool := fun _ => true

/-- Builder outcome: every target but the x86_64 macOS one builds. -/
def demoBuildOk : TargetRow → Bool := fun t => t.zigTarget != "x86_64-macos"

/-- A cache directory carrying a matching marker. -/
def hitFS : FS := ⟨[(markerName, "3.13.1")], ["", "windows", "unix"]⟩

/-- An empty cache directory. -/
def emptyFS : FS := ⟨[], []⟩

/-- Tarball decoder that yields an empty member list. -/
def tParseOk : String → Except String (List TarMember) := fun _ => .ok []

/-- Tarball decoder that fails. -/
def tParseFail : String → Except String (List TarMember) := fun _ => .error "bad tar"

/-- TOML parser stub yielding an empty manifest. -/
def tToml : String → List (String × PyVal) := fun _ => []

/-- A small concrete ABI manifest. -/
def demoManifest : List (String × PyVal) :=
  [("function", PyVal.table [("PyB", PyVal.table []), ("PyA", PyVal.table []),
      ("skip", PyVal.scalar)]),
   ("data", PyVal.table [("PyD", PyVal.table [])]),
   ("abi", PyVal.scalar)]

/-! ## Helper lemmas on strings -/

theorem str_ne_of_nth {a b : String} (i : Nat) (ca cb : Char)
    (ha : a.data[i]? = some ca) (hb : b.data[i]? = some cb) (h : ca ≠ cb) : a ≠ b := by
  intro e
  rw [e, hb] at ha
  exact h (Option.some.inj ha).symm

theorem append_data_nth {a t : String} {i : Nat} (h : i < a.data.length) :
    (a ++ t).data[i]? = a.data[i]? := by
  rw [String.data_append]
  exact List.getElem?_append_left h

theorem append_left_ne (s : String) {a b : String} (h : a ≠ b) : s ++ a ≠ s ++ b := by
  intro e
  apply h
  apply String.ext
  have h2 : s.data ++ a.data = s.data ++ b.data := by
    simpa [String.data_append] using congrArg String.data e
  exact (List.append_right_inj s.data).mp h2

theorem dist_info_append_nth4 (v s : String) : (dist_info v ++ s).data[4]? = some '-' := by
  have h1 : (dist_info v ++ s) = "pyoz-" ++ (v ++ (".dist-info" ++ s)) := by
    simp [dist_info, String.append_assoc]
  rw [h1, append_data_nth (by decide)]
  decide

theorem dist_info_append_nth0 (v s : String) : (dist_info v ++ s).data[0]? = some 'p' := by
  have h1 : (dist_info v ++ s) = "pyoz-" ++ (v ++ (".dist-info" ++ s)) := by
    simp [dist_info, String.append_assoc]
  rw [h1, append_data_nth (by decide)]
  decide

theorem ext_entry_nth0 (ext : String) : ("_pyoz" ++ ext).data[0]? = some '_' := by
  rw [append_data_nth (by decide)]
  decide

/-- Pairwise distinctness of the seven in-archive paths written before RECORD. -/
theorem wheelPathsNodup (version platform_tag ext readme initC mainC extD : String) :
    (namelist (wheelEntriesPre version platform_tag ext readme initC mainC extD)).Nodup := by
  have d14 : ∀ s, ("pyoz/__init__.py" : String) ≠ dist_info version ++ s := fun s =>
    str_ne_of_nth 4 '/' '-' (by decide) (dist_info_append_nth4 version s) (by decide)
  have d24 : ∀ s, ("pyoz/__main__.py" : String) ≠ dist_info version ++ s := fun s =>
    str_ne_of_nth 4 '/' '-' (by decide) (dist_info_append_nth4 version s) (by decide)
  have d13 : ("pyoz/__init__.py" : String) ≠ "_pyoz" ++ ext :=
    str_ne_of_nth 0 'p' '_' (by decide) (ext_entry_nth0 ext) (by decide)
  have d23 : ("pyoz/__main__.py" : String) ≠ "_pyoz" ++ ext :=
    str_ne_of_nth 0 'p' '_' (by decide) (ext_entry_nth0 ext) (by decide)
  have d34 : ∀ s, ("_pyoz" ++ ext : String) ≠ dist_info version ++ s := fun s =>
    str_ne_of_nth 0 '_' 'p' (ext_entry_nth0 ext) (dist_info_append_nth0 version s) (by decide)
  have dD : ∀ s1 s2 : String, s1 ≠ s2 → dist_info version ++ s1 ≠ dist_info version ++ s2 :=
    fun _ _ h => append_left_ne _ h
  simp only [namelist, wheelEntriesPre, List.map_cons, List.map_nil, List.nodup_cons,
    List.mem_cons, List.mem_singleton, List.not_mem_nil, not_or, List.nodup_nil]
  exact ⟨⟨by decide, d13, d14 _, d14 _, d14 _, d14 _, not_false⟩,
    ⟨d23, d24 _, d24 _, d24 _, d24 _, not_false⟩,
    ⟨d34 _, d34 _, d34 _, d34 _, not_false⟩,
    ⟨dD _ _ (by decide), dD _ _ (by decide), dD _ _ (by decide), not_false⟩,
    ⟨dD _ _ (by decide), dD _ _ (by decide), not_false⟩,
    ⟨dD _ _ (by decide), not_false⟩, not_false, trivial⟩

/-- Reading every named entry back, over a duplicate-free archive, is the same
as walking the entries directly. -/
theorem namelist_map_zread {α : Type} (f : String → String → α) :
    ∀ z : List ArchiveEntry, (namelist z).Nodup →
      (namelist z).map (fun item => f item (zread z item)) =
        z.map (fun e => f e.path e.data)
  | [], _ => rfl
  | e :: z, h => by
    rw [show namelist (e :: z) = e.path :: namelist z from rfl] at h
    obtain ⟨hmem, htl⟩ := List.nodup_cons.mp h
    have hhead : zread (e :: z) e.path = e.data := by
      simp [zread, List.find?]
    have htail : ∀ item ∈ namelist z, zread (e :: z) item = zread z item := by
      intro item hit
      have hne : (e.path == item) = false :=
        beq_eq_false_iff_ne.mpr (fun hc => hmem (hc ▸ hit))
      simp [zread, List.find?, hne]
    calc (namelist (e :: z)).map (fun item => f item (zread (e :: z) item))
        = f e.path (zread (e :: z) e.path) ::
            (namelist z).map (fun item => f item (zread (e :: z) item)) := rfl
      _ = f e.path e.data :: (namelist z).map (fun item => f item (zread z item)) := by
          rw [hhead, List.map_congr_left (fun item hit => by rw [htail item hit])]
      _ = (e :: z).map (fun e2 => f e2.path e2.data) := by
          rw [namelist_map_zread f z htl]; rfl

/-- C1: in every archive built by build_wheel the RECORD entry is last; the
entries before it appear in insertion order, and the RECORD payload consists
of exactly one line per such entry, of the form path comma sha256= digest
comma byte size recomputed from that entry, followed by the self-referential
RECORD line with empty digest and size fields, so recomputing digest and size
of every non-RECORD entry reproduces the recorded lines byte for byte. -/
theorem C1_record_manifest (H : String → List Nat)
    (version platform_tag ext readme initC mainC extD : String) :
    build_wheel H version platform_tag ext readme initC mainC extD =
      wheelEntriesPre version platform_tag ext readme initC mainC extD ++
        [⟨dist_info version ++ "/RECORD",
          String.intercalate "\n"
            ((wheelEntriesPre version platform_tag ext readme initC mainC extD).map
                (fun e => record_line H e.path e.data) ++
              [dist_info version ++ "/RECORD,,"]) ++ "\n", 0⟩] ∧
    (namelist (wheelEntriesPre version platform_tag ext readme initC mainC extD)).Nodup := by
  refine ⟨?_, wheelPathsNodup version platform_tag ext readme initC mainC extD⟩
  unfold build_wheel
  dsimp only
  rw [namelist_map_zread (record_line H) _
    (wheelPathsNodup version platform_tag ext readme initC mainC extD)]

/-- C9 counterexample: build_wheel hard-codes the distribution name pyoz, so
for version 1.2.3 and the manylinux x86_64 tag the archive filename starts
with pyoz, not with the name demo claimed by the spec example. -/
theorem C9_counterexample :
    wheel_name "1.2.3" "manylinux2014_x86_64" =
        "pyoz-1.2.3-cp38-abi3-manylinux2014_x86_64.whl" ∧
      wheel_name "1.2.3" "manylinux2014_x86_64" ≠
        "demo-1.2.3-cp38-abi3-manylinux2014_x86_64.whl" := by
  constructor
  · decide
  · decide

/-- C9 amended: the native-extension filename follows the grammar with the
stable-ABI tag cp38-abi3 and the name component fixed to pyoz; the
self-contained-binary mode, modelled from the spec because it lives outside
the Python sources, uses py3-none in the same grammar. -/
theorem C9_amended_filename (version platform_tag : String) :
    wheel_name version platform_tag =
      "pyoz-" ++ version ++ "-cp38-abi3-" ++ platform_tag ++ ".whl" ∧
    (wheel_name version platform_tag).data.take 5 = "pyoz-".data ∧
    (∀ name archiveExt : String,
      binary_mode_wheel_name name version platform_tag archiveExt =
        name ++ "-" ++ version ++ "-py3-none-" ++ platform_tag ++ "." ++ archiveExt) := by
  refine ⟨rfl, ?_, fun _ _ => rfl⟩
  have h1 : wheel_name version platform_tag =
      "pyoz-" ++ (version ++ ("-cp38-abi3-" ++ (platform_tag ++ ".whl"))) := by
    simp [wheel_name, String.append_assoc]
  rw [h1, String.data_append]
  show List.take ("pyoz-".data.length) _ = "pyoz-".data
  exact List.take_left _ _

/-- C8: for every target of the matrix, when the artifact is present at the
conventional directory of the platform family of the target, the lib output
directory for Unix-like targets and the bin output directory for Windows
targets, and absent from the other probe location, find_extension locates it
exactly there. -/
theorem C8_artifact_location (t : TargetRow) (isfile : String → Bool)
    (ht : t ∈ TARGETS) (h1 : isfile (familyPath t) = true)
    (h2 : isfile (otherPath t) = false) :
    find_extension isfile t.ext = some (familyPath t) := by
  fin_cases ht
  · have a1 : isfile "zig-out/lib/_pyoz.so" = true := h1
    simp [find_extension, List.find?, a1]
    decide
  · have a1 : isfile "zig-out/lib/_pyoz.so" = true := h1
    simp [find_extension, List.find?, a1]
    decide
  · have a1 : isfile "zig-out/lib/_pyoz.so" = true := h1
    simp [find_extension, List.find?, a1]
    decide
  · have a1 : isfile "zig-out/lib/_pyoz.so" = true := h1
    simp [find_extension, List.find?, a1]
    decide
  · have a1 : isfile "zig-out/bin/_pyoz.pyd" = true := h1
    have a2 : isfile "zig-out/lib/_pyoz.pyd" = false := h2
    simp [find_extension, List.find?, a1, a2]
    decide
  · have a1 : isfile "zig-out/bin/_pyoz.pyd" = true := h1
    have a2 : isfile "zig-out/lib/_pyoz.pyd" = false := h2
    simp [find_extension, List.find?, a1, a2]
    decide

theorem C8_artifact_location_witness :
    find_extension libOnlyProbe ".so" = some "zig-out/lib/_pyoz.so" :=
  C8_artifact_location ⟨"x86_64-linux-gnu", "manylinux2014_x86_64", ".so"⟩ libOnlyProbe
    (by decide) (by decide) (by decide)

/-- C10: the backend project-field reader is total and never raises; a missing
manifest or one with no matching line yields unknown for the name field and
0.0.0 for every other field, build_sdist therefore always produces a filename,
unknown-0.0.0.tar.gz with no manifest at all, while the orchestrator version
reader signals an error in both situations. -/
theorem C10_backend_field_reader (field : String) (lines : List String) :
    _get_project_field field none = projectFallback field ∧
    ((∀ l ∈ lines, reFieldMatch field l = none) →
      _get_project_field field (some lines) = projectFallback field) ∧
    (field ≠ "name" → _get_project_field field none = "0.0.0") ∧
    _get_project_field "name" none = "unknown" ∧
    build_sdist_filename none = "unknown-0.0.0.tar.gz" ∧
    get_version none = .error "FileNotFoundError" ∧
    ((∀ l ∈ lines, reFieldMatch "version" l = none) →
      ∃ e, get_version (some lines) = .error e) := by
  refine ⟨rfl, ?_, ?_, by decide, by decide, rfl, ?_⟩
  · intro h
    simp [_get_project_field, List.findSome?_eq_none_iff.mpr h]
  · intro h
    have hb : (field == "name") = false := beq_eq_false_iff_ne.mpr h
    simp [_get_project_field, projectFallback, hb]
  · intro h
    refine ⟨"Could not find version in pyproject.toml", ?_⟩
    simp [get_version, List.findSome?_eq_none_iff.mpr h]

theorem C10_backend_field_reader_witness :
    _get_project_field "version" (some ["x = 1"]) = "0.0.0" ∧
    (∃ e, get_version (some ["x = 1"]) = .error e) := by
  have h := C10_backend_field_reader "version" ["x = 1"]
  exact ⟨h.2.1 (by decide), h.2.2.2.2.2.2 (by decide)⟩

/-- Wheel count of the per-target loop: with builds enabled, each target whose
native build succeeds and whose artifact is found contributes exactly one
wheel, and failed targets contribute none without aborting the loop. -/
theorem loopCount (buildOk : TargetRow → Bool) (isfile : TargetRow → String → Bool)
    (version : String) :
    ∀ L : List TargetRow,
      (∀ t ∈ L, buildOk t = true → (find_extension (isfile t) t.ext).isSome = true) →
      ((L.map (processTarget false buildOk isfile version)).filterMap Prod.fst).length
        = (L.filter (fun t => buildOk t)).length
  | [], _ => rfl
  | t :: L, h => by
    have ht := h t (List.mem_cons_self t L)
    have hL := fun t2 ht2 => h t2 (List.mem_cons_of_mem t ht2)
    by_cases hb : buildOk t = true
    · obtain ⟨p, hp⟩ := Option.isSome_iff_exists.mp (ht hb)
      simp [processTarget, hb, hp, List.filter_cons]
      simpa [List.filterMap_map] using loopCount buildOk isfile version L hL
    · have hb2 : buildOk t = false := by simpa using hb
      simp [processTarget, hb2, List.filter_cons]
      simpa [List.filterMap_map] using loopCount buildOk isfile version L hL

/-- C3: in the all-targets mode with building enabled and header provisioning
successful, when the targets that build successfully all have their artifact
present, the run produces one wheel per successful target, so N minus k wheels
when k of the N matrix targets fail their native build, reports exactly that
count in the final summary line, and exits with status 0. -/
theorem C3_partial_failure_counting (buildOk : TargetRow → Bool)
    (isfile : TargetRow → String → Bool) (version dist_dir : String)
    (h : ∀ t ∈ TARGETS, buildOk t = true → (find_extension (isfile t) t.ext).isSome = true) :
    (main_all false (.ok ()) buildOk isfile version dist_dir).wheels.length
        = TARGETS.length - (TARGETS.filter (fun t => !(buildOk t))).length ∧
    (main_all false (.ok ()) buildOk isfile version dist_dir).exitCode = 0 ∧
    (main_all false (.ok ()) buildOk isfile version dist_dir).summary
        = some (summaryText
            (TARGETS.length - (TARGETS.filter (fun t => !(buildOk t))).length) dist_dir) := by
  have hcount :
      ((TARGETS.map (processTarget false buildOk isfile version)).filterMap Prod.fst).length
        = (TARGETS.filter (fun t => buildOk t)).length :=
    loopCount buildOk isfile version TARGETS h
  have hsplit : TARGETS.length = (TARGETS.filter (fun t => buildOk t)).length +
      (TARGETS.filter (fun t => !(buildOk t))).length := by
    simpa using List.length_eq_length_filter_add (l := TARGETS) (fun t => buildOk t)
  have hfin : (TARGETS.filter (fun t => buildOk t)).length
      = TARGETS.length - (TARGETS.filter (fun t => !(buildOk t))).length := by omega
  refine ⟨?_, rfl, ?_⟩
  · show ((TARGETS.map (processTarget false buildOk isfile version)).filterMap Prod.fst).length = _
    rw [hcount, hfin]
  · show some (summaryText
        ((TARGETS.map (processTarget false buildOk isfile version)).filterMap
          Prod.fst).length dist_dir) = _
    rw [hcount, hfin]

theorem C3_partial_failure_counting_witness :
    (main_all false (.ok ()) demoBuildOk allPresentProbe "0.5.0" "dist").wheels.length
      = TARGETS.length - (TARGETS.filter (fun t => !(demoBuildOk t))).length :=
  (C3_partial_failure_counting demoBuildOk allPresentProbe "0.5.0" "dist" (by decide)).1

/-- C5 counterexample: in the all-targets skip-build invocation with no
artifact present for any target, the run completes with exit status 0 and an
empty wheel list, not the non-zero exit the claim requires of every skip-build
invocation. -/
theorem C5_counterexample :
    (main_all true (.ok ()) anyBuildOk noneProbe "0.5.0" "dist").exitCode = 0 ∧
    (main_all true (.ok ()) anyBuildOk noneProbe "0.5.0" "dist").wheels = [] := by
  constructor
  · rfl
  · rfl

/-- C5 amended: in the current-platform-only skip-build invocation a missing
artifact exits with status 1 before any archive assembly and with zero
native-builder invocations; in the all-targets skip-build invocation a missing
artifact is a logged per-target skip that contributes no wheel and no builder
invocation, and the run exits 0. -/
theorem C5_amended_skip_build (system machine version dist_dir : String) (zigOk : Bool)
    (isfile : String → Bool) (buildOk : TargetRow → Bool)
    (isfileT : TargetRow → String → Bool) (t : TargetRow)
    (hmiss : find_extension isfile (get_current_platform_info system machine).ext = none)
    (hmissT : find_extension (isfileT t) t.ext = none) :
    main_current true system machine zigOk isfile version dist_dir = ⟨[], 0, none, 1⟩ ∧
    processTarget true buildOk isfileT version t = (none, 0) ∧
    (main_all true (.ok ()) buildOk isfileT version dist_dir).exitCode = 0 := by
  refine ⟨?_, ?_, rfl⟩
  · simp [main_current, hmiss]
  · simp [processTarget, hmissT]

theorem C5_amended_skip_build_witness :
    main_current true "linux" "x86_64" true noFileProbe "0.5.0" "dist" = ⟨[], 0, none, 1⟩ :=
  (C5_amended_skip_build "linux" "x86_64" "0.5.0" "dist" true noFileProbe anyBuildOk
    noneProbe ⟨"x86_64-linux-gnu", "manylinux2014_x86_64", ".so"⟩ (by decide) (by decide)).1

theorem writeFile_dirs (fs : FS) (p c : String) : (fs.writeFile p c).dirs = fs.dirs := rfl

theorem stageHost_dirs (host : Option String) (fs : FS) :
    (stageHost host fs).dirs = fs.dirs := by
  cases host <;> rfl

theorem mem_dirs_ite (c : Prop) [Decidable c] (a b : FS) (d : String)
    (ha : d ∈ a.dirs) (hb : d ∈ b.dirs) : d ∈ (if c then a else b).dirs := by
  split <;> assumption

theorem extractMember_dirs (version : String) (ta : Bool)
    (tp : String → List (String × PyVal)) (fs : FS) (m : TarMember) (d : String)
    (h : d ∈ fs.dirs) : d ∈ (extractMember version ta tp fs m).dirs := by
  unfold extractMember FS.mkdir FS.writeFile
  repeat' split
  all_goals first
    | exact h
    | exact List.mem_cons_of_mem _ h
    | exact mem_dirs_ite _ _ _ _ h (List.mem_cons_of_mem _ h)

theorem extractAll_dirs (version : String) (ta : Bool)
    (tp : String → List (String × PyVal)) :
    ∀ (members : List TarMember) (fs : FS) (d : String),
      d ∈ fs.dirs → d ∈ (extractAll version ta tp fs members).dirs
  | [], _, _, h => h
  | m :: ms, fs, d, h =>
    extractAll_dirs version ta tp ms (extractMember version ta tp fs m) d
      (extractMember_dirs version ta tp fs m d h)

/-- Closed form of the cache-miss branch of ensure_python_headers. -/
theorem ensure_miss (version : String) (fs : FS) (fetch : Except String String)
    (parseTar : String → Except String (List TarMember)) (ta : Bool)
    (tp : String → List (String × PyVal)) (host : Option String)
    (h : cacheHit version fs = false) :
    ensure_python_headers version fs fetch parseTar ta tp host =
      match fetch with
      | .error e => ⟨freshTree, 1, .error e⟩
      | .ok bytes =>
        match parseTar bytes with
        | .error e => ⟨freshTree, 1, .error e⟩
        | .ok members =>
          ⟨(stageHost host (extractAll version ta tp freshTree members)).writeFile
              markerName version, 1, .ok ()⟩ := by
  simp [ensure_python_headers, h]

/-- C2: a cache hit returns the directory untouched with zero downloads; a
cache miss performs exactly one download, the resulting tree does not depend
on the previous directory contents, and the rebuilt tree has the common root
and the windows and unix subtrees. -/
theorem C2_cache_coherency (version : String) (fs fs2 : FS)
    (fetch : Except String String) (parseTar : String → Except String (List TarMember))
    (ta : Bool) (tp : String → List (String × PyVal)) (host : Option String) :
    (cacheHit version fs = true →
      ensure_python_headers version fs fetch parseTar ta tp host = ⟨fs, 0, .ok ()⟩) ∧
    (cacheHit version fs = false →
      (ensure_python_headers version fs fetch parseTar ta tp host).downloads = 1 ∧
      (cacheHit version fs2 = false →
        (ensure_python_headers version fs fetch parseTar ta tp host).fs
          = (ensure_python_headers version fs2 fetch parseTar ta tp host).fs) ∧
      "" ∈ (ensure_python_headers version fs fetch parseTar ta tp host).fs.dirs ∧
      "windows" ∈ (ensure_python_headers version fs fetch parseTar ta tp host).fs.dirs ∧
      "unix" ∈ (ensure_python_headers version fs fetch parseTar ta tp host).fs.dirs) := by
  constructor
  · intro h
    simp [ensure_python_headers, h]
  · intro h
    rw [ensure_miss version fs fetch parseTar ta tp host h]
    refine ⟨?_, ?_, ?_, ?_, ?_⟩
    · cases fetch with
      | error e => rfl
      | ok bytes =>
        cases hp : parseTar bytes with
        | error e => simp [hp]
        | ok members => simp [hp]
    · intro h2
      rw [ensure_miss version fs2 fetch parseTar ta tp host h2]
    all_goals
      cases fetch with
      | error e => simp [freshTree]
      | ok bytes =>
        cases hp : parseTar bytes with
        | error e => simp [hp, freshTree]
        | ok members =>
          simp only [hp]
          rw [writeFile_dirs, stageHost_dirs]
          exact extractAll_dirs version ta tp members freshTree _ (by simp [freshTree])

theorem C2_cache_coherency_witness :
    ensure_python_headers "3.13.1" hitFS (.ok "b") tParseOk true tToml none
        = ⟨hitFS, 0, .ok ()⟩ ∧
    (ensure_python_headers "3.13.1" emptyFS (.ok "b") tParseOk true tToml none).downloads
        = 1 := by
  have h := C2_cache_coherency "3.13.1" hitFS emptyFS (.ok "b") tParseOk true tToml none
  have h2 := C2_cache_coherency "3.13.1" emptyFS hitFS (.ok "b") tParseOk true tToml none
  exact ⟨h.1 (by decide), (h2.2 (by decide)).1⟩

/-- C4: on a cache miss the old tree, marker included, is removed before the
download, so a failing fetch or an undecodable tarball leaves an errored run
whose directory has no marker and is itself a cache miss for any later run,
which downloads again; the marker is present with the requested version
exactly when the whole rebuild ran to completion. -/
theorem C4_marker_after_success (version : String) (fs : FS)
    (fetch : Except String String) (parseTar : String → Except String (List TarMember))
    (ta : Bool) (tp : String → List (String × PyVal)) (host : Option String)
    (hmiss : cacheHit version fs = false) :
    (∀ e, fetch = .error e →
      (ensure_python_headers version fs fetch parseTar ta tp host).outcome = .error e ∧
      (ensure_python_headers version fs fetch parseTar ta tp host).fs = freshTree ∧
      (ensure_python_headers version fs fetch parseTar ta tp host).fs.readFile markerName
          = none ∧
      cacheHit version (ensure_python_headers version fs fetch parseTar ta tp host).fs
          = false ∧
      (ensure_python_headers version
          (ensure_python_headers version fs fetch parseTar ta tp host).fs
          fetch parseTar ta tp host).downloads = 1) ∧
    (∀ bytes e, fetch = .ok bytes → parseTar bytes = .error e →
      (ensure_python_headers version fs fetch parseTar ta tp host).outcome = .error e ∧
      (ensure_python_headers version fs fetch parseTar ta tp host).fs = freshTree ∧
      (ensure_python_headers version fs fetch parseTar ta tp host).fs.readFile markerName
          = none ∧
      cacheHit version (ensure_python_headers version fs fetch parseTar ta tp host).fs
          = false ∧
      (ensure_python_headers version
          (ensure_python_headers version fs fetch parseTar ta tp host).fs
          fetch parseTar ta tp host).downloads = 1) ∧
    (∀ bytes members, fetch = .ok bytes → parseTar bytes = .ok members →
      (ensure_python_headers version fs fetch parseTar ta tp host).outcome = .ok () ∧
      (ensure_python_headers version fs fetch parseTar ta tp host).fs.readFile markerName
          = some version) := by
  rw [ensure_miss version fs fetch parseTar ta tp host hmiss]
  refine ⟨?_, ?_, ?_⟩
  · rintro e rfl
    refine ⟨rfl, rfl, rfl, rfl, ?_⟩
    rw [ensure_miss version freshTree (.error e) parseTar ta tp host rfl]
  · rintro bytes e rfl hp
    dsimp only
    rw [hp]
    refine ⟨rfl, rfl, rfl, rfl, ?_⟩
    rw [ensure_miss version freshTree (.ok bytes) parseTar ta tp host rfl]
    dsimp only
    rw [hp]
  · rintro bytes members rfl hp
    dsimp only
    rw [hp]
    exact ⟨rfl, by simp [FS.writeFile, FS.readFile, List.lookup]⟩

theorem C4_marker_after_success_witness :
    (ensure_python_headers "3.13.1" emptyFS (.error "net down") tParseOk true tToml
        none).outcome = .error "net down" ∧
    (ensure_python_headers "3.13.1" emptyFS (.error "net down") tParseOk true tToml
        none).fs.readFile markerName = none ∧
    (ensure_python_headers "3.13.1" emptyFS (.ok "b") tParseOk true tToml
        none).fs.readFile markerName = some "3.13.1" := by
  have h := C4_marker_after_success "3.13.1" emptyFS (.error "net down") tParseOk true tToml
    none (by decide)
  have h2 := C4_marker_after_success "3.13.1" emptyFS (.ok "b") tParseOk true tToml
    none (by decide)
  exact ⟨(h.1 "net down" rfl).1, (h.1 "net down" rfl).2.2.1,
    (h2.2.2 "b" [] rfl rfl).2⟩

theorem leadsWith_append : ∀ l r : List Char, leadsWith l (l ++ r) = true
  | [], _ => rfl
  | a :: as, r => by simp [leadsWith, leadsWith_append as r]

theorem leadsWith_decomp : ∀ {l cs : List Char}, leadsWith l cs = true →
    cs = l ++ cs.drop l.length
  | [], _, _ => rfl
  | _ :: _, [], h => by simp [leadsWith] at h
  | a :: as, b :: bs, h => by
    rw [leadsWith] at h
    obtain ⟨h1, h2⟩ := Bool.and_eq_true_iff.mp h
    have hab : a = b := of_decide_eq_true h1
    subst hab
    exact congrArg (fun x => a :: x) (leadsWith_decomp h2)

theorem readFile_writeFile_self (fs : FS) (p c : String) :
    (fs.writeFile p c).readFile p = some c := by
  simp [FS.writeFile, FS.readFile, List.lookup]

theorem readFile_writeFile_ne (fs : FS) (p q c : String) (h : q ≠ p) :
    (fs.writeFile p c).readFile q = fs.readFile q := by
  have hb : (q == p) = false := beq_eq_false_iff_ne.mpr h
  simp [FS.writeFile, FS.readFile, List.lookup, hb]

/-- A tar member leaves a relative path unread-changed unless it is the member
that writes it: the two windows byproduct paths are excluded, and an
Include-rooted member writing this very path is excluded. -/
theorem extractMember_read_preserved (version : String) (ta : Bool)
    (tp : String → List (String × PyVal)) (fs : FS) (m : TarMember) (rel : String)
    (h1 : rel ≠ "windows/pyconfig.h") (h2 : rel ≠ "windows/python3.def")
    (h3 : leadsWith (includeRoot version).data m.name.data = true →
      (⟨m.name.data.drop (includeRoot version).data.length⟩ : String) ≠ rel) :
    (extractMember version ta tp fs m).readFile rel = fs.readFile rel := by
  unfold extractMember
  repeat' split
  all_goals try (dsimp only; split)
  all_goals first
    | rfl
    | exact readFile_writeFile_ne _ _ _ _ (Ne.symm (h3 (by assumption)))
    | exact readFile_writeFile_ne _ _ _ _ h1
    | exact readFile_writeFile_ne _ _ _ _ h2

theorem extractAll_read_preserved (version : String) (ta : Bool)
    (tp : String → List (String × PyVal)) (rel : String)
    (h1 : rel ≠ "windows/pyconfig.h") (h2 : rel ≠ "windows/python3.def") :
    ∀ (members : List TarMember) (fs : FS),
      (∀ m ∈ members, leadsWith (includeRoot version).data m.name.data = true →
        (⟨m.name.data.drop (includeRoot version).data.length⟩ : String) ≠ rel) →
      (extractAll version ta tp fs members).readFile rel = fs.readFile rel
  | [], _, _ => rfl
  | m :: ms, fs, h =>
    (extractAll_read_preserved version ta tp rel h1 h2 ms
        (extractMember version ta tp fs m)
        (fun m3 hm3 => h m3 (List.mem_cons_of_mem m hm3))).trans
      (extractMember_read_preserved version ta tp fs m rel h1 h2
        (h m (List.mem_cons_self m ms)))

/-- Every Include-rooted file member of a duplicate-free tarball ends up at
its relative path, whatever its extension. -/
theorem extract_places (version : String) (ta : Bool)
    (tp : String → List (String × PyVal)) (rel content : String) (hrel0 : rel ≠ "")
    (hw1 : rel ≠ "windows/pyconfig.h") (hw2 : rel ≠ "windows/python3.def") :
    ∀ (members : List TarMember) (fs : FS) (m : TarMember),
      m ∈ members → m.isFile = true → m.name = includeRoot version ++ rel →
      m.fileData = some content → (members.map TarMember.name).Nodup →
      (extractAll version ta tp fs members).readFile rel = some content
  | [], _, _, hm, _, _, _, _ => absurd hm (List.not_mem_nil _)
  | m2 :: ms, fs, m, hm, hfile, hname, hdata, hnodup => by
    obtain ⟨hhead, htail⟩ :
        (∀ x ∈ ms, ¬x.name = m2.name) ∧ (ms.map TarMember.name).Nodup := by
      simpa [List.nodup_cons] using hnodup
    have hdat0 : ∀ m0 : TarMember, m0.name = includeRoot version ++ rel →
        m0.name.data = (includeRoot version).data ++ rel.data := by
      intro m0 h0
      rw [h0, String.data_append]
    rcases List.mem_cons.mp hm with rfl | hm2
    · have hdat := hdat0 m hname
      have hlead : leadsWith (includeRoot version).data m.name.data = true := by
        rw [hdat]; exact leadsWith_append _ _
      have hdrop : (⟨m.name.data.drop (includeRoot version).data.length⟩ : String) = rel := by
        apply String.ext
        show List.drop (includeRoot version).data.length m.name.data = rel.data
        rw [hdat]
        exact List.drop_left _ _
      have hstep : (extractMember version ta tp fs m).readFile rel = some content := by
        unfold extractMember
        rw [if_neg (by simp [hfile]), if_pos hlead]
        dsimp only
        rw [hdrop, if_neg hrel0, hdata]
        exact readFile_writeFile_self _ _ _
      have hpres : ∀ m3 ∈ ms, leadsWith (includeRoot version).data m3.name.data = true →
          (⟨m3.name.data.drop (includeRoot version).data.length⟩ : String) ≠ rel := by
        intro m3 hm3 hl3 hceq
        have hd3 : m3.name.data =
            (includeRoot version).data ++ m3.name.data.drop (includeRoot version).data.length :=
          leadsWith_decomp hl3
        have hdd : m3.name.data.drop (includeRoot version).data.length = rel.data :=
          congrArg String.data hceq
        have heq3 : m3.name = m.name := by
          apply String.ext
          rw [hd3, hdd, hdat]
        exact hhead m3 hm3 heq3
      calc (extractAll version ta tp fs (m :: ms)).readFile rel
          = (extractAll version ta tp (extractMember version ta tp fs m) ms).readFile rel :=
            rfl
        _ = (extractMember version ta tp fs m).readFile rel :=
            extractAll_read_preserved version ta tp rel hw1 hw2 ms _ hpres
        _ = some content := hstep
    · exact extract_places version ta tp rel content hrel0 hw1 hw2 ms
        (extractMember version ta tp fs m2) m hm2 hfile hname hdata htail

/-- C6 counterexample: a non-header file under the public Include root of the
tarball is extracted to the common subtree rather than ignored. -/
theorem C6_counterexample :
    (extractAll "3.13.1" true tToml freshTree
        [⟨"Python-3.13.1/Include/README.rst", true, some "restructured text"⟩]).readFile
      "README.rst" = some "restructured text" := by
  decide

/-- C6 amended: during extraction, every file member under the Include root of
a duplicate-free tarball, header or not, is placed under the common subtree
preserving its relative path, provided that path does not collide with the two
windows byproduct paths; and a file member matching none of the three
extraction subsets leaves the directory untouched. -/
theorem C6_amended_extraction (version : String) (ta : Bool)
    (tp : String → List (String × PyVal)) (members : List TarMember)
    (m : TarMember) (rel content : String)
    (hm : m ∈ members) (hfile : m.isFile = true)
    (hname : m.name = includeRoot version ++ rel)
    (hrel0 : rel ≠ "") (hdata : m.fileData = some content)
    (hnodup : (members.map TarMember.name).Nodup)
    (hw1 : rel ≠ "windows/pyconfig.h") (hw2 : rel ≠ "windows/python3.def") :
    (extractAll version ta tp freshTree members).readFile rel = some content ∧
    (∀ m2 : TarMember, leadsWith (includeRoot version).data m2.name.data = false →
      m2.name ≠ pcPyconfigName version → m2.name ≠ stableAbiName version →
      ∀ fs, extractMember version ta tp fs m2 = fs) := by
  constructor
  · exact extract_places version ta tp rel content hrel0 hw1 hw2 members freshTree m
      hm hfile hname hdata hnodup
  · intro m2 hl hn1 hn2 fs
    unfold extractMember
    by_cases hf : m2.isFile
    · rw [if_neg (by simp [hf]), if_neg (by simp [hl]), if_neg hn1, if_neg hn2]
    · rw [if_pos (by simp [hf])]

theorem C6_amended_extraction_witness :
    (extractAll "3.13.1" true tToml freshTree
        [⟨"Python-3.13.1/Include/Python.h", true, some "header text"⟩]).readFile
      "Python.h" = some "header text" :=
  (C6_amended_extraction "3.13.1" true tToml
    [⟨"Python-3.13.1/Include/Python.h", true, some "header text"⟩]
    ⟨"Python-3.13.1/Include/Python.h", true, some "header text"⟩ "Python.h" "header text"
    (by decide) (by decide) (by decide) (by decide) (by decide) (by decide) (by decide)
    (by decide)).1

theorem sortStrings_sorted (l : List String) : List.Sorted (· ≤ ·) (sortStrings l) :=
  List.sorted_insertionSort _ l

theorem sortStrings_perm (l : List String) : (sortStrings l).Perm l :=
  List.perm_insertionSort _ l

theorem sortStrings_nodup {l : List String} (h : l.Nodup) : (sortStrings l).Nodup :=
  (sortStrings_perm l).nodup_iff.mpr h

theorem sortStrings_eq_of_perm {l1 l2 : List String} (h : l1.Perm l2) :
    sortStrings l1 = sortStrings l2 :=
  List.eq_of_perm_of_sorted
    ((sortStrings_perm l1).trans (h.trans (sortStrings_perm l2).symm))
    (sortStrings_sorted l1) (sortStrings_sorted l2)

theorem functionsOf_eq : ∀ d, functionsOf d = catSymbols "function" d
  | [] => rfl
  | (c, PyVal.table l) :: rest => by
      simp [functionsOf, catSymbols, entryCat, List.flatMap_cons, functionsOf_eq rest]
  | (c, PyVal.scalar) :: rest => by
      simp [functionsOf, catSymbols, entryCat, List.flatMap_cons, functionsOf_eq rest]

theorem datasOf_eq : ∀ d, datasOf d = catSymbols "data" d
  | [] => rfl
  | (c, PyVal.table l) :: rest => by
      simp [datasOf, catSymbols, entryCat, List.flatMap_cons, datasOf_eq rest]
  | (c, PyVal.scalar) :: rest => by
      simp [datasOf, catSymbols, entryCat, List.flatMap_cons, datasOf_eq rest]

theorem flatMap_perm_of_forall₂ {α β : Type} (f : α → List β) (R : α → α → Prop)
    (hf : ∀ p q, R p q → (f p).Perm (f q)) :
    ∀ {l1 l2 : List α}, List.Forall₂ R l1 l2 → (l1.flatMap f).Perm (l2.flatMap f) := by
  intro l1 l2 h
  induction h with
  | nil => exact List.Perm.refl _
  | cons h1 h2 ih => simpa [List.flatMap_cons] using (hf _ _ h1).append ih

theorem entryCat_perm (cat : String) (p q : String × PyVal) (h : EntryPerm p q) :
    (entryCat cat p).Perm (entryCat cat q) := by
  obtain ⟨hk, hv⟩ := h
  rcases p with ⟨c1, v1⟩
  rcases q with ⟨c2, v2⟩
  dsimp at hk
  subst hk
  cases v1 with
  | table l =>
    cases v2 with
    | table l2 =>
      dsimp at hv
      dsimp [entryCat, innerNames]
      split
      · exact (hv.filter _).map _
      · exact List.Perm.refl _
    | scalar => exact absurd hv (by dsimp; exact fun hc => PyVal.noConfusion hc)
  | scalar =>
    cases v2 with
    | table l2 => exact absurd hv (by dsimp; exact fun hc => PyVal.noConfusion hc)
    | scalar => exact List.Perm.refl _

theorem catSymbols_perm (cat : String) {d d2 : List (String × PyVal)}
    (h : ManifestPerm d d2) : (catSymbols cat d).Perm (catSymbols cat d2) := by
  obtain ⟨mid, hp, hf⟩ := h
  exact (List.Perm.flatMap_right (entryCat cat) hp).trans
    (flatMap_perm_of_forall₂ (entryCat cat) EntryPerm (entryCat_perm cat) hf)

theorem catSymbols_cons (cat : String) (p : String × PyVal) (rest : List (String × PyVal)) :
    catSymbols cat (p :: rest) = entryCat cat p ++ catSymbols cat rest := by
  simp [catSymbols, List.flatMap_cons]

theorem catSymbols_nil (cat : String) : ∀ d, cat ∉ d.map Prod.fst → catSymbols cat d = []
  | [], _ => rfl
  | (c, v) :: rest, h => by
    simp only [List.map_cons, List.mem_cons, not_or] at h
    obtain ⟨h1, h2⟩ := h
    rw [catSymbols_cons, catSymbols_nil cat rest h2, List.append_nil]
    cases v with
    | table l =>
      dsimp [entryCat]
      rw [if_neg (Ne.symm h1)]
    | scalar => rfl

theorem catSymbols_nodup (cat : String) : ∀ d, (d.map Prod.fst).Nodup →
    (∀ p ∈ d, innerKeysOk p.2 = true) → (catSymbols cat d).Nodup
  | [], _, _ => List.nodup_nil
  | (c, v) :: rest, hk, hin => by
    simp only [List.map_cons, List.nodup_cons] at hk
    obtain ⟨hc, hk2⟩ := hk
    have ih := catSymbols_nodup cat rest hk2 (fun p hp => hin p (List.mem_cons_of_mem _ hp))
    cases v with
    | scalar =>
      rw [catSymbols_cons]
      simpa [entryCat] using ih
    | table l =>
      by_cases hceq : c = cat
      · subst hceq
        have hnil : catSymbols c rest = [] := catSymbols_nil c rest hc
        have hl : (l.map Prod.fst).Nodup :=
          of_decide_eq_true
            (by simpa [innerKeysOk] using hin (c, PyVal.table l) (List.mem_cons_self _ _))
        have hinn : (innerNames l).Nodup := by
          have hsub : List.Sublist (innerNames l) (l.map Prod.fst) :=
            List.Sublist.map Prod.fst (List.filter_sublist l)
          exact hl.sublist hsub
        rw [catSymbols_cons, hnil, List.append_nil]
        dsimp [entryCat]
        rw [if_pos rfl]
        exact hinn
      · rw [catSymbols_cons]
        dsimp [entryCat]
        rw [if_neg hceq]
        simpa using ih

/-- C7: the generated linker-definition file is a library-name header line, an
EXPORTS line, the function symbols sorted alphabetically, then the data
symbols sorted alphabetically with a DATA suffix; each section is
duplicate-free for every manifest whose tables have distinct keys; the output
is invariant under reordering of the manifest, only the categories named
function and data contribute, and entries whose value is not a table are
skipped without error. -/
theorem C7_def_file_determinism (data data2 : List (String × PyVal))
    (hk : (data.map Prod.fst).Nodup)
    (hin : ∀ p ∈ data, innerKeysOk p.2 = true) :
    defFileText data =
      "LIBRARY python3\n" ++ "EXPORTS\n" ++
      String.join ((sortStrings (functionsOf data)).map (fun n => "    " ++ n ++ "\n")) ++
      String.join
        ((sortStrings (datasOf data)).map (fun n => "    " ++ n ++ " DATA\n")) ∧
    List.Sorted (· ≤ ·) (sortStrings (functionsOf data)) ∧
    (sortStrings (functionsOf data)).Nodup ∧
    List.Sorted (· ≤ ·) (sortStrings (datasOf data)) ∧
    (sortStrings (datasOf data)).Nodup ∧
    (ManifestPerm data data2 → defFileText data = defFileText data2) ∧
    (∀ (c : String) (v : PyVal) (rest : List (String × PyVal)),
      c ≠ "function" → c ≠ "data" →
      functionsOf ((c, v) :: rest) = functionsOf rest ∧
      datasOf ((c, v) :: rest) = datasOf rest) ∧
    (∀ (c : String) (rest : List (String × PyVal)),
      functionsOf ((c, PyVal.scalar) :: rest) = functionsOf rest ∧
      datasOf ((c, PyVal.scalar) :: rest) = datasOf rest) ∧
    (∀ (n : String) (rest : List (String × PyVal)),
      innerNames ((n, PyVal.scalar) :: rest) = innerNames rest) := by
  refine ⟨rfl, sortStrings_sorted _, ?_, sortStrings_sorted _, ?_, ?_, ?_, ?_, ?_⟩
  · exact sortStrings_nodup ((functionsOf_eq data) ▸ catSymbols_nodup "function" data hk hin)
  · exact sortStrings_nodup ((datasOf_eq data) ▸ catSymbols_nodup "data" data hk hin)
  · intro hmp
    have h1 : (functionsOf data).Perm (functionsOf data2) := by
      rw [functionsOf_eq data, functionsOf_eq data2]
      exact catSymbols_perm "function" hmp
    have h2 : (datasOf data).Perm (datasOf data2) := by
      rw [datasOf_eq data, datasOf_eq data2]
      exact catSymbols_perm "data" hmp
    unfold defFileText
    rw [sortStrings_eq_of_perm h1, sortStrings_eq_of_perm h2]
  · intro c v rest h1 h2
    cases v <;> exact ⟨by simp [functionsOf, h1], by simp [datasOf, h2]⟩
  · intro c rest
    exact ⟨rfl, rfl⟩
  · intro n rest
    simp [innerNames, List.filter_cons]

theorem C7_def_file_determinism_witness :
    List.Sorted (· ≤ ·) (sortStrings (functionsOf demoManifest)) ∧
    (sortStrings (functionsOf demoManifest)).Nodup ∧
    (sortStrings (datasOf demoManifest)).Nodup :=
  ⟨(C7_def_file_determinism demoManifest [] (by decide) (by decide)).2.1,
   (C7_def_file_determinism demoManifest [] (by decide) (by decide)).2.2.1,
   (C7_def_file_determinism demoManifest [] (by decide) (by decide)).2.2.2.2.1⟩

end PyOZ
